import Mathlib

/-!
Verification of the Transit_Talk survey-dashboard analysis pipeline.

The development shallowly embeds the analysis core of the two application
variants (`app.py` and `dashboard.py`): CSV column-kind inference as performed
by the data loader, the numeric/categorical chart dispatch, `value_counts`
ranking, label and title cleanup/truncation, top-insight extraction, the
mean-of-means rating aggregate, cross-tabulation pairing, and the
load-failure path of the dashboard route.

Conventions: machine floats are modelled by exact rationals (`ℚ`); a missing
cell (pandas `NaN`) is `Option.none`; Python exceptions that the code catches
are modelled by `Option`/sum results.
-/

namespace TransitTalk

/-! ### Cell parsing (model of the pandas `read_csv` numeric inference) -/

/-- Numeric value of a list of decimal digit characters. -/
def digitsVal (l : List Char) : ℕ :=
  l.foldl (fun a c => a * 10 + (c.toNat - 48)) 0

/-- Splits a character list at the first character satisfying `p`:
returns the part before it and, when found, the part after it. -/
def splitAtChar (p : Char → Bool) : List Char → List Char × Option (List Char)
  | [] => ([], none)
  | c :: r =>
    if p c then ([], some r)
    else
      let q := splitAtChar p r
      (c :: q.1, q.2)

/-- Consumes an optional leading sign, returning the sign and the rest. -/
def parseSign : List Char → ℤ × List Char
  | '+' :: r => (1, r)
  | '-' :: r => (-1, r)
  | l => (1, l)

/-- Parses an unsigned decimal mantissa: digits, optionally with one decimal
point; at least one digit must be present on one side of the point. -/
def parseDecimal (l : List Char) : Option ℚ :=
  let s := splitAtChar (fun c => c == '.') l
  match s.2 with
  | none =>
    if !s.1.isEmpty && s.1.all Char.isDigit then some (digitsVal s.1 : ℚ) else none
  | some fp =>
    if (!s.1.isEmpty || !fp.isEmpty) && s.1.all Char.isDigit && fp.all Char.isDigit then
      some ((digitsVal s.1 : ℚ) + (digitsVal fp : ℚ) / (10 : ℚ) ^ fp.length)
    else none

/-- Parses a signed exponent part: optional sign then at least one digit. -/
def parseExp (l : List Char) : Option ℤ :=
  let sg := parseSign l
  if !sg.2.isEmpty && sg.2.all Char.isDigit then some (sg.1 * (digitsVal sg.2 : ℤ))
  else none

/-- Parses one CSV cell as an integer or floating-point literal
(sign, decimal mantissa, optional exponent), the test pandas applies to every
non-missing cell when inferring a column dtype.  Returns `none` on a
malformed cell. -/
def parseCell (s : String) : Option ℚ :=
  let sg := parseSign s.data
  let sp := splitAtChar (fun c => c == 'e' || c == 'E') sg.2
  match sp.2 with
  | none => (parseDecimal sp.1).map (fun q => (sg.1 : ℚ) * q)
  | some ex =>
    match parseDecimal sp.1, parseExp ex with
    | some q, some k => some ((sg.1 : ℚ) * q * (10 : ℚ) ^ k)
    | _, _ => none

/-- Whether a cell's text parses as a numeric literal. -/
def cellIsNumeric (s : String) : Bool := (parseCell s).isSome

/-- Whether one (possibly missing) cell is compatible with a numeric column:
missing cells are ignored, present cells must parse. -/
def cellOkNum : Option String → Bool
  | none => true
  | some s => cellIsNumeric s

/-- Model of the load-time dtype inference: a column receives a numeric dtype
(`np.int64`/`np.float64`) exactly when every non-missing cell parses as a
numeric literal; otherwise it receives the object dtype. -/
def columnIsNumeric (cells : List (Option String)) : Bool := cells.all cellOkNum

/-! ### Typed column values -/

/-- Value held by a typed column cell after loading: a parsed number for a
numeric-dtype column, raw text for an object-dtype column. -/
inductive CVal where
  | num (q : ℚ)
  | str (s : String)
deriving DecidableEq

/-- Model of Python `str()` applied to a cell value (the numeric rendering is
a stand-in for float formatting; no claim depends on its exact digits). -/
def showCVal : CVal → String
  | .num q => if q.den = 1 then toString q.num ++ ".0" else toString q
  | .str s => s

/-- Typed cells of a column, as they sit in the loaded dataframe. -/
def typedCells (cells : List (Option String)) : List (Option CVal) :=
  if columnIsNumeric cells then
    cells.map (fun oc => oc.bind (fun s => (parseCell s).map CVal.num))
  else
    cells.map (fun oc => oc.map CVal.str)

/-- Non-missing values of a typed column, in row order. -/
def nonMissing (l : List (Option CVal)) : List CVal := l.filterMap id

/-! ### value_counts (model of `Series.value_counts`) -/

/-- Worker for `dedupFirst`: drops elements already seen, otherwise keeps
them and records them as seen. -/
def dedupFirstAux {α : Type} [DecidableEq α] (seen : List α) : List α → List α
  | [] => []
  | x :: xs =>
    if x ∈ seen then dedupFirstAux seen xs
    else x :: dedupFirstAux (x :: seen) xs

/-- Distinct elements of a list, keeping the first occurrence of each and
preserving first-encounter order. -/
def dedupFirst {α : Type} [DecidableEq α] (l : List α) : List α :=
  dedupFirstAux [] l

/-- Frequency table of a list: each distinct value, in first-encounter order,
paired with its number of occurrences. -/
def freqList {α : Type} [DecidableEq α] (l : List α) : List (α × ℕ) :=
  (dedupFirst l).map (fun v => (v, l.count v))

/-- Inserts an entry into a count-descending list, placing it after every
entry with a strictly larger count (so that, of two equal counts, the one
inserted later in the fold ends up first). -/
def insertByCount {α : Type} (x : α × ℕ) : List (α × ℕ) → List (α × ℕ)
  | [] => [x]
  | y :: ys => if x.2 < y.2 then y :: insertByCount x ys else x :: y :: ys

/-- Stable descending-by-count sort (insertion sort). -/
def sortByCountDesc {α : Type} (l : List (α × ℕ)) : List (α × ℕ) :=
  l.foldr insertByCount []

/-- Model of `Series.value_counts()` on the non-missing values of a column:
occurrence counts ranked descending by count, ties kept in first-encounter
order. -/
def value_counts {α : Type} [DecidableEq α] (l : List α) : List (α × ℕ) :=
  sortByCountDesc (freqList l)

/-! ### Chart construction (`create_plot` in app.py, the plotting helpers in
dashboard.py) -/

/-- Truncation applied to each categorical bar label:
`str(label)[:50] + '...' if len(str(label)) > 50 else str(label)`. -/
def truncLabel (s : String) : String :=
  if 50 < s.data.length then ⟨s.data.take 50 ++ ('.' :: '.' :: '.' :: [])⟩ else s

/-- Bar-chart payload of a categorical column: the ranked `value_counts`
entries with display-truncated labels. -/
def barPayload (cells : List (Option String)) : List (String × ℕ) :=
  (value_counts (nonMissing (typedCells cells))).map
    (fun p => (truncLabel (showCVal p.1), p.2))

/-- Parsed numeric values of a column's non-missing cells. -/
def numericVals (cells : List (Option String)) : List ℚ :=
  cells.filterMap (fun oc => oc.bind parseCell)

/-- Model of `Series.mean()`: arithmetic mean of the non-missing values,
`none` (pandas `NaN`) when there are none. -/
def numMean (cells : List (Option String)) : Option ℚ :=
  let vs := numericVals cells
  if vs.isEmpty then none else some (vs.sum / (vs.length : ℚ))

/-- Data content of one rendered chart. -/
inductive ChartPayload where
  | histogram (bins : ℕ) (mean : Option ℚ)
  | bars (entries : List (String × ℕ))
deriving DecidableEq

/-- Chart dispatch of `create_plot`: a histogram with 10 bins and a mean
marker when the column dtype is numeric, otherwise a ranked bar chart. -/
def create_plot (cells : List (Option String)) : ChartPayload :=
  if columnIsNumeric cells then ChartPayload.histogram 10 (numMean cells)
  else ChartPayload.bars (barPayload cells)

/-! ### Title cleanup -/

/-- Whitespace characters stripped by Python `str.strip()` (ASCII part). -/
def isPyWS (c : Char) : Bool :=
  c == ' ' || c == '\t' || c == '\n' || c == '\r' || c == '\x0b' || c == '\x0c'

/-- Model of Python `str.strip()`: removes leading and trailing whitespace. -/
def pyStrip (l : List Char) : List Char :=
  (((l.dropWhile isPyWS).reverse.dropWhile isPyWS)).reverse

/-- Replacement applied to one character by `.replace('�', '-')`. -/
def replGlyph (c : Char) : Char := if c = '�' then '-' else c

/-- Model of `.replace('�', '-')`: every replacement glyph becomes a
hyphen (the pattern is a single character, so this is a plain map). -/
def replaceGlyph (l : List Char) : List Char := l.map replGlyph

/-- Model of Python `.replace('  ', ' ')`: non-overlapping double spaces are
replaced left to right by single spaces, scanning resumes after each
replacement. -/
def collapseDS : List Char → List Char
  | [] => []
  | [c] => [c]
  | c1 :: c2 :: rest =>
    if c1 = ' ' ∧ c2 = ' ' then ' ' :: collapseDS rest
    else c1 :: collapseDS (c2 :: rest)

/-- Truncation applied to chart titles: `clean_title[:77] + '...'` when the
cleaned title exceeds 80 characters. -/
def truncate80 (l : List Char) : List Char :=
  if 80 < l.length then l.take 77 ++ ('.' :: '.' :: '.' :: []) else l

/-- Character-level composite of the title cleanup in
`plot_categorical_distribution`/`create_plot`:
`title.strip().replace('�', '-').replace('  ', ' ')` followed by the
80-character truncation. -/
def cleanChars (l : List Char) : List Char :=
  truncate80 (collapseDS (replaceGlyph (pyStrip l)))

/-- Chart-title cleanup on strings. -/
def clean_title (s : String) : String := ⟨cleanChars s.data⟩

/-- Question-title cleanup used for insight records (app.py line 146):
`column.strip().replace('�', '-').replace('  ', ' ')` — same chain but
with no length truncation. -/
def cleanQuestion (s : String) : String :=
  ⟨collapseDS (replaceGlyph (pyStrip s.data))⟩

/-! ### Table model -/

/-- One loaded column: its header name and its raw cells in row order
(`none` is a missing cell). -/
structure Column where
  name : String
  cells : List (Option String)
deriving DecidableEq

/-- A loaded dataframe: columns in source order, all of the same row count. -/
structure Table where
  cols : List Column
  nrows : ℕ
  wf : ∀ c ∈ cols, c.cells.length = nrows

/-- Exclusion list of app.py (line 133): known non-question field names. -/
def excluded_app : List String :=
  ["timestamp", "Timestamp", "Email Address", "email", "Email", "Name",
   "Age", "Age ", "Are you a resident of Ahmedabad ?"]

/-- Exclusion list of dashboard.py (lines 152 and 176). -/
def excluded_dash : List String :=
  ["timestamp", "Timestamp", "Email Address", "email", "Email"]

/-- Non-excluded (question) columns, in table order (app.py line 134). -/
def questionCols (t : Table) : List Column :=
  t.cols.filter (fun c => decide (c.name ∉ excluded_app))

/-! ### Insight extraction (app.py lines 137-154) -/

/-- One key-insight record. -/
structure Insight where
  question : String
  top_answer : String
  percentage : ℤ
  count : ℕ
  total : ℕ
deriving DecidableEq

/-- Model of Python `int()` on a rational: truncation toward zero
(`Rat.floor` is the floor function on rationals). -/
def pyInt (q : ℚ) : ℤ := if 0 ≤ q then q.floor else -(-q).floor

/-- Rational power of two with an integer exponent, written without `zpow`
so that it evaluates by plain natural-number arithmetic. -/
def twoPow (e : ℤ) : ℚ :=
  if 0 ≤ e then ((2 ^ e.toNat : ℕ) : ℚ) else 1 / ((2 ^ (-e).toNat : ℕ) : ℚ)

/-- Fueled binary logarithm: agrees with `⌊log₂ n⌋` for positive `n` once
`fuel ≥ log₂ n`; the structural recursion keeps it evaluable by reduction. -/
def log2Fuel : ℕ → ℕ → ℕ
  | 0, _ => 0
  | fuel + 1, n => if 2 ≤ n then log2Fuel fuel (n / 2) + 1 else 0

/-- Floor of the binary logarithm of a positive natural number
(`n` itself always suffices as fuel). -/
def natLog2 (n : ℕ) : ℕ := log2Fuel n n

/-- Binary exponent `⌊log₂ q⌋` of a positive rational: the numerator and
denominator bound it within one, and a single comparison settles it. -/
def qExp (q : ℚ) : ℤ :=
  let e0 : ℤ := (natLog2 q.num.natAbs : ℤ) - (natLog2 q.den : ℤ)
  if q < twoPow e0 then e0 - 1 else e0

/-- Nearest integer to a rational, ties to even (the IEEE-754 default). -/
def roundHalfEven (q : ℚ) : ℤ :=
  let f := q.floor
  let r := q - (f : ℚ)
  if r < 1 / 2 then f
  else if 1 / 2 < r then f + 1
  else if f % 2 = 0 then f else f + 1

/-- Rounds an exact rational to the nearest IEEE-754 binary64 value
(53-bit significand, round-to-nearest, ties-to-even), exactly in the normal
range; overflow and subnormals are not modelled, as the dashboard's
percentage arithmetic never reaches them. -/
def fpRound (q : ℚ) : ℚ :=
  if q = 0 then 0
  else
    let aq := if q < 0 then -q else q
    let e := qExp aq
    let m := roundHalfEven (aq * twoPow (52 - e))
    let v := (m : ℚ) * twoPow (e - 52)
    if q < 0 then -v else v

/-- Binary64 division, correctly rounded: models Python float `/` on exactly
representable operands. -/
def fpDiv (a b : ℚ) : ℚ := fpRound (a / b)

/-- Binary64 multiplication, correctly rounded: models Python float `*` on
exactly representable operands. -/
def fpMul (a b : ℚ) : ℚ := fpRound (a * b)

/-- Insight extraction: for every question column that is not entirely
missing (`not df[column].isna().all()`, equivalently a nonempty
`value_counts`), the top entry of its ranked frequency distribution becomes a
record with the truncated percentage `int((top_count / len(df)) * 100)`,
where the division and the multiplication are binary64 operations. -/
def key_insights (t : Table) : List Insight :=
  (questionCols t).filterMap (fun c =>
    match value_counts (nonMissing (typedCells c.cells)) with
    | [] => none
    | p :: _ =>
      some ⟨cleanQuestion c.name, showCVal p.1,
            pyInt (fpMul (fpDiv (p.2 : ℚ) (t.nrows : ℚ)) 100), p.2, t.nrows⟩)

/-! ### Aggregates (app.py lines 156-161) -/

/-- Numeric-dtype columns not on the exclusion list
(`df.select_dtypes(include=[np.number])` filtered by `excluded_cols`). -/
def numericQCols (t : Table) : List Column :=
  t.cols.filter (fun c =>
    columnIsNumeric c.cells && decide (c.name ∉ excluded_app))

/-- Model of `df[numerical_cols].mean().mean() if numerical_cols else 0`:
the mean of the per-column means, where pandas skips a `NaN` column mean in
the outer mean; `none` models a `NaN` aggregate. -/
def avg_rating (t : Table) : Option ℚ :=
  if (numericQCols t).isEmpty then some 0
  else if ((numericQCols t).filterMap (fun c => numMean c.cells)).isEmpty then none
  else some (((numericQCols t).filterMap (fun c => numMean c.cells)).sum
    / ((((numericQCols t).filterMap (fun c => numMean c.cells)).length : ℚ)))

/-- Aggregate `total_questions = len(all_question_cols)`. -/
def total_questions (t : Table) : ℕ := (questionCols t).length

/-! ### Chart loop (app.py lines 163-173) -/

/-- Model of the plot loop: only the first four question columns
(`priority_questions = all_question_cols[:4]`) produce charts, each guarded
by the (always true) `column in df.columns` check; the entry title is
`column.strip()[:60]`. -/
def plots (t : Table) : List (String × ChartPayload) :=
  ((questionCols t).take 4).filterMap (fun c =>
    if (t.cols.map Column.name).contains c.name then
      some (⟨(pyStrip c.name.data).take 60⟩, create_plot c.cells)
    else none)

/-! ### Cross-tabulation pairing (dashboard.py lines 174-241) -/

/-- Names of object-dtype columns not on dashboard.py's exclusion list, in
table order. -/
def catCols (t : Table) : List String :=
  (t.cols.filter (fun c =>
    !columnIsNumeric c.cells && decide (c.name ∉ excluded_dash))).map Column.name

/-- Cross-tab column pairs: `(cat[0], cat[1])` when at least two categorical
columns exist, plus `(cat[1], cat[2])` when a third exists. -/
def crossTabs (t : Table) : List (String × String) :=
  match catCols t with
  | c0 :: c1 :: c2 :: _ => [(c0, c1), (c1, c2)]
  | [c0, c1] => [(c0, c1)]
  | _ => []

/-! ### Loader and dashboard route (app.py lines 24-32, 106-182) -/

/-- Result of `load_survey_data`. -/
inductive LoadResult where
  | failure (cause : String)
  | success (t : Table)

/-- Model of `load_survey_data`: the surrounding `try/except` turns any fetch
or parse exception into a non-raising failure result whose cause is the
printed human-readable message; a successful fetch returns the table. -/
def load_survey_data (fetch : Except String Table) : LoadResult :=
  match fetch with
  | .error e => .failure ("Error loading data from Google Sheets: " ++ e)
  | .ok t => .success t

/-- Data handed to the dashboard template on success. -/
structure PageData where
  total_responses : ℕ
  avg : Option ℚ
  totalQuestions : ℕ
  charts : List (String × ChartPayload)
  insights : List Insight

/-- Rendered result of one dashboard request. -/
inductive DashResult where
  | errorPage (msg : String)
  | page (p : PageData)

/-- Charts shown by a dashboard result (the error page shows none). -/
def DashResult.chartsOf : DashResult → List (String × ChartPayload)
  | .errorPage _ => []
  | .page p => p.charts

/-- Insights shown by a dashboard result (the error page shows none). -/
def DashResult.insightsOf : DashResult → List Insight
  | .errorPage _ => []
  | .page p => p.insights

/-- Model of the `/` route: a failed load short-circuits to the error page;
otherwise the analysis pipeline runs and the template receives the
aggregates, the (at most four) charts and the first six insights. -/
def dashboard_route (fetch : Except String Table) : DashResult :=
  match load_survey_data fetch with
  | .failure _ =>
    .errorPage "Error loading survey data! Make sure the Google Sheet is publicly accessible."
  | .success t =>
    .page ⟨t.nrows, avg_rating t, total_questions t, plots t, (key_insights t).take 6⟩

/-! ### Character-class predicates used to delimit title-cleanup behavior -/

/-- Whether a character list contains no two consecutive spaces. -/
def noDoubleSpace : List Char → Bool
  | c1 :: c2 :: rest => !(c1 == ' ' && c2 == ' ') && noDoubleSpace (c2 :: rest)
  | _ => true

/-- Whether a character list contains no three consecutive spaces. -/
def noTripleSpace : List Char → Bool
  | c1 :: c2 :: c3 :: rest =>
    !(c1 == ' ' && c2 == ' ' && c3 == ' ') && noTripleSpace (c2 :: c3 :: rest)
  | _ => true

/-- Whether a character list contains no replacement glyph. -/
def noGlyph (l : List Char) : Bool := l.all (fun c => !(c == '�'))

/-- Whether a character list does not start with whitespace. -/
def headNotWS (l : List Char) : Bool :=
  match l.head? with
  | some c => !isPyWS c
  | none => true

/-- Whether a character list does not end with whitespace. -/
def lastNotWS (l : List Char) : Bool :=
  match l.getLast? with
  | some c => !isPyWS c
  | none => true

/-! ### Concrete tables used by the claim witnesses -/

/-- Table with two columns and zero rows. -/
def tEmptyRows : Table := ⟨[⟨"Q1", []⟩, ⟨"Timestamp", []⟩], 0, by decide⟩

/-- Table with a single categorical question column. -/
def tOneCat : Table := ⟨[⟨"Timestamp", [some "t"]⟩, ⟨"Q", [some "x"]⟩], 1, by decide⟩

/-- Table with one categorical question column over 100 rows whose top value
occurs 29 times. -/
def t29 : Table :=
  ⟨[⟨"Q", List.replicate 29 (some "A") ++ List.replicate 28 (some "B")
      ++ List.replicate 28 (some "C") ++ List.replicate 15 (some "D")⟩],
   100, by decide⟩

/-- Table with one numeric question column with a missing cell. -/
def tRating : Table := ⟨[⟨"Q1 rating", [some "3", some "4", some "5", none]⟩], 4, by decide⟩

/-! ### General helper lemmas -/

theorem columnIsNumeric_iff {cells : List (Option String)} :
    columnIsNumeric cells = true ↔ ∀ s : String, some s ∈ cells → cellIsNumeric s = true := by
  unfold columnIsNumeric
  rw [List.all_eq_true]
  constructor
  · intro h s hs
    exact h _ hs
  · intro h oc hoc
    cases oc with
    | none => rfl
    | some s => exact h s hoc

theorem filterMap_guard_eq_map {α β : Type} (f : α → β) (g : α → Bool) (l : List α)
    (h : ∀ a ∈ l, g a = true) :
    (l.filterMap (fun a => if g a then some (f a) else none)) = l.map f := by
  induction l with
  | nil => rfl
  | cons a l ih =>
    rw [List.filterMap_cons, List.map_cons, h a (List.mem_cons_self a l), if_pos rfl]
    rw [ih (fun b hb => h b (List.mem_cons_of_mem a hb))]

/-! ### Lemmas on dedupFirst, insertByCount and value_counts -/

theorem mem_dedupFirstAux {α : Type} [DecidableEq α] (l : List α) :
    ∀ (seen : List α) (y : α), y ∈ dedupFirstAux seen l ↔ y ∈ l ∧ y ∉ seen := by
  induction l with
  | nil => simp [dedupFirstAux]
  | cons x xs ih =>
    intro seen y
    rw [dedupFirstAux]
    by_cases hx : x ∈ seen
    · rw [if_pos hx, ih seen y, List.mem_cons]
      constructor
      · rintro ⟨h1, h2⟩
        exact ⟨Or.inr h1, h2⟩
      · rintro ⟨h1 | h1, h2⟩
        · exact absurd (h1 ▸ hx) h2
        · exact ⟨h1, h2⟩
    · rw [if_neg hx, List.mem_cons, ih (x :: seen) y, List.mem_cons, List.mem_cons]
      constructor
      · rintro (rfl | ⟨h1, h2⟩)
        · exact ⟨Or.inl rfl, hx⟩
        · exact ⟨Or.inr h1, fun hy => h2 (Or.inr hy)⟩
      · rintro ⟨h1 | h1, h2⟩
        · exact Or.inl h1
        · by_cases hyx : y = x
          · exact Or.inl hyx
          · exact Or.inr ⟨h1, fun hy => (hy.elim hyx h2)⟩

theorem mem_dedupFirst {α : Type} [DecidableEq α] (l : List α) (y : α) :
    y ∈ dedupFirst l ↔ y ∈ l := by
  rw [dedupFirst, mem_dedupFirstAux]
  simp

theorem mem_insertByCount {α : Type} (x z : α × ℕ) (l : List (α × ℕ)) :
    z ∈ insertByCount x l ↔ z = x ∨ z ∈ l := by
  induction l with
  | nil => simp [insertByCount]
  | cons y ys ih =>
    rw [insertByCount]
    by_cases h : x.2 < y.2
    · rw [if_pos h, List.mem_cons, ih, List.mem_cons]
      tauto
    · rw [if_neg h]
      exact List.mem_cons

theorem pairwise_insertByCount {α : Type} (x : α × ℕ) (l : List (α × ℕ))
    (h : l.Pairwise (fun a b => b.2 ≤ a.2)) :
    (insertByCount x l).Pairwise (fun a b => b.2 ≤ a.2) := by
  induction l with
  | nil => simp [insertByCount]
  | cons y ys ih =>
    rw [List.pairwise_cons] at h
    obtain ⟨hy, hys⟩ := h
    rw [insertByCount]
    by_cases hc : x.2 < y.2
    · rw [if_pos hc, List.pairwise_cons]
      refine ⟨fun z hz => ?_, ih hys⟩
      rcases (mem_insertByCount x z ys).mp hz with rfl | hzys
      · exact Nat.le_of_lt hc
      · exact hy z hzys
    · rw [if_neg hc, List.pairwise_cons]
      refine ⟨fun z hz => ?_, List.pairwise_cons.mpr ⟨hy, hys⟩⟩
      rcases List.mem_cons.mp hz with rfl | hzys
      · exact Nat.le_of_not_lt hc
      · exact Nat.le_trans (hy z hzys) (Nat.le_of_not_lt hc)

theorem sortByCountDesc_cons {α : Type} (x : α × ℕ) (l : List (α × ℕ)) :
    sortByCountDesc (x :: l) = insertByCount x (sortByCountDesc l) := rfl

theorem filter_insertByCount {α : Type} (x : α × ℕ) (l : List (α × ℕ)) (k : ℕ) :
    (insertByCount x l).filter (fun p => p.2 = k) =
      if x.2 = k then x :: l.filter (fun p => p.2 = k)
      else l.filter (fun p => p.2 = k) := by
  induction l with
  | nil => simp only [insertByCount, List.filter]; split <;> simp_all
  | cons y ys ih =>
    rw [insertByCount]
    by_cases hc : x.2 < y.2
    · rw [if_pos hc, List.filter_cons, List.filter_cons]
      by_cases hy : y.2 = k
      · have hx : ¬x.2 = k := by omega
        simp [hy, ih, hx]
      · simp [hy, ih]
    · rw [if_neg hc, List.filter_cons, List.filter_cons]
      by_cases hx : x.2 = k
      · simp [hx]
      · simp [hx]

theorem pairwise_sortByCountDesc {α : Type} (l : List (α × ℕ)) :
    (sortByCountDesc l).Pairwise (fun a b => b.2 ≤ a.2) := by
  induction l with
  | nil => simp [sortByCountDesc]
  | cons x xs ih =>
    rw [sortByCountDesc_cons]
    exact pairwise_insertByCount x _ ih

theorem filter_sortByCountDesc {α : Type} (l : List (α × ℕ)) (k : ℕ) :
    (sortByCountDesc l).filter (fun p => p.2 = k) = l.filter (fun p => p.2 = k) := by
  induction l with
  | nil => rfl
  | cons x xs ih =>
    rw [sortByCountDesc_cons, filter_insertByCount, List.filter_cons]
    by_cases hx : x.2 = k
    · simp [hx, ih]
    · simp [hx, ih]

theorem mem_sortByCountDesc {α : Type} (p : α × ℕ) (l : List (α × ℕ)) :
    p ∈ sortByCountDesc l ↔ p ∈ l := by
  induction l with
  | nil => simp [sortByCountDesc]
  | cons x xs ih =>
    rw [sortByCountDesc_cons, mem_insertByCount, ih, List.mem_cons]

theorem mem_value_counts {α : Type} [DecidableEq α] (p : α × ℕ) (l : List α) :
    p ∈ value_counts l ↔ p.1 ∈ l ∧ p.2 = l.count p.1 := by
  rw [value_counts, mem_sortByCountDesc, freqList, List.mem_map]
  constructor
  · rintro ⟨v, hv, rfl⟩
    exact ⟨(mem_dedupFirst l v).mp hv, rfl⟩
  · rintro ⟨h1, h2⟩
    refine ⟨p.1, (mem_dedupFirst l p.1).mpr h1, ?_⟩
    obtain ⟨a, b⟩ := p
    simp only at h2 ⊢
    rw [h2]

/-! ### Lemmas on stripping and glyph replacement (toward claim C6) -/

theorem headNotWS_reverse (l : List Char) : headNotWS l.reverse = lastNotWS l := by
  simp only [headNotWS, lastNotWS, List.head?_reverse]

theorem headNotWS_dropWhile (l : List Char) :
    headNotWS (l.dropWhile isPyWS) = true := by
  induction l with
  | nil => rfl
  | cons c cs ih =>
    rw [List.dropWhile_cons]
    by_cases h : isPyWS c = true
    · rw [if_pos h]
      exact ih
    · rw [if_neg h]
      simp only [headNotWS, List.head?_cons]
      simp_all

theorem dropWhile_eq_self_of_headNotWS {l : List Char} (h : headNotWS l = true) :
    l.dropWhile isPyWS = l := by
  cases l with
  | nil => rfl
  | cons c cs =>
    simp only [headNotWS, List.head?_cons] at h
    rw [List.dropWhile_cons, if_neg (by simp_all)]

theorem getLast?_dropWhile_of_ne_nil {p : Char → Bool} {l : List Char}
    (h : l.dropWhile p ≠ []) : (l.dropWhile p).getLast? = l.getLast? := by
  conv_rhs => rw [← List.takeWhile_append_dropWhile p l]
  rw [List.getLast?_append]
  cases hz : (l.dropWhile p).getLast? with
  | none => exact absurd (List.getLast?_eq_none_iff.mp hz) h
  | some c => simp

theorem headNotWS_pyStrip (l : List Char) : headNotWS (pyStrip l) = true := by
  rw [pyStrip]
  by_cases hz : (l.dropWhile isPyWS).reverse.dropWhile isPyWS = []
  · rw [hz]
    rfl
  · have h1 := getLast?_dropWhile_of_ne_nil hz
    rw [List.getLast?_reverse] at h1
    have h2 := headNotWS_dropWhile l
    simp only [headNotWS, List.head?_reverse] at h2 ⊢
    rw [h1]
    exact h2

theorem lastNotWS_pyStrip (l : List Char) : lastNotWS (pyStrip l) = true := by
  rw [pyStrip]
  have h := headNotWS_dropWhile ((l.dropWhile isPyWS).reverse)
  simp only [headNotWS] at h
  simp only [lastNotWS, List.getLast?_reverse]
  exact h

theorem pyStrip_eq_self {l : List Char} (h1 : headNotWS l = true)
    (h2 : lastNotWS l = true) : pyStrip l = l := by
  rw [pyStrip, dropWhile_eq_self_of_headNotWS h1,
    dropWhile_eq_self_of_headNotWS (by rw [headNotWS_reverse]; exact h2),
    List.reverse_reverse]

theorem replGlyph_notWS {c : Char} (h : isPyWS c = false) :
    isPyWS (replGlyph c) = false := by
  rw [replGlyph]
  by_cases hc : c = '�'
  · rw [if_pos hc]
    rfl
  · rw [if_neg hc]
    exact h

theorem replGlyph_space_iff (c : Char) : (replGlyph c == ' ') = (c == ' ') := by
  by_cases h : c = '�'
  · subst h
    rfl
  · rw [replGlyph, if_neg h]

theorem headNotWS_replaceGlyph {l : List Char} (h : headNotWS l = true) :
    headNotWS (replaceGlyph l) = true := by
  cases l with
  | nil => rfl
  | cons c cs =>
    simp only [headNotWS, List.head?_cons] at h
    simp only [replaceGlyph, List.map_cons, headNotWS, List.head?_cons]
    rw [replGlyph_notWS (by simp_all)]
    rfl

theorem lastNotWS_replaceGlyph {l : List Char} (h : lastNotWS l = true) :
    lastNotWS (replaceGlyph l) = true := by
  rw [← headNotWS_reverse] at h ⊢
  rw [replaceGlyph, ← List.map_reverse]
  exact headNotWS_replaceGlyph h

theorem noGlyph_replaceGlyph (l : List Char) : noGlyph (replaceGlyph l) = true := by
  rw [noGlyph, replaceGlyph, List.all_map, List.all_eq_true]
  intro c _
  by_cases h : c = '�'
  · simp [Function.comp, replGlyph, h]
  · simp [Function.comp, replGlyph, h]

theorem noGlyph_mono {s l : List Char} (hsub : s ⊆ l) (h : noGlyph l = true) :
    noGlyph s = true := by
  rw [noGlyph, List.all_eq_true] at h ⊢
  exact fun c hc => h c (hsub hc)

theorem replaceGlyph_fix {l : List Char} (h : noGlyph l = true) :
    replaceGlyph l = l := by
  rw [noGlyph, List.all_eq_true] at h
  rw [replaceGlyph]
  induction l with
  | nil => rfl
  | cons c cs ih =>
    rw [List.map_cons]
    have hc := h c (List.mem_cons_self c cs)
    have : replGlyph c = c := by
      rw [replGlyph, if_neg (by simp_all)]
    rw [this, ih (fun x hx => h x (List.mem_cons_of_mem c hx))]

/-! ### Lemmas on double-space collapsing (toward claim C6) -/

theorem head?_collapseDS : ∀ l : List Char, (collapseDS l).head? = l.head?
  | [] => rfl
  | [c] => rfl
  | c1 :: c2 :: rest => by
    by_cases h : c1 = ' ' ∧ c2 = ' '
    · rw [collapseDS, if_pos h, List.head?_cons, List.head?_cons, h.1]
    · rw [collapseDS, if_neg h, List.head?_cons, List.head?_cons]

theorem collapseDS_ne_nil : ∀ {l : List Char}, l ≠ [] → collapseDS l ≠ []
  | [], h => absurd rfl h
  | [c], _ => by
    rw [collapseDS]
    exact List.cons_ne_nil c []
  | c1 :: c2 :: rest, _ => by
    rw [collapseDS]
    by_cases h : c1 = ' ' ∧ c2 = ' '
    · rw [if_pos h]
      exact List.cons_ne_nil _ _
    · rw [if_neg h]
      exact List.cons_ne_nil _ _

theorem getLast?_cons_of_ne_nil {a : Char} {l : List Char} (h : l ≠ []) :
    (a :: l).getLast? = l.getLast? := by
  cases l with
  | nil => exact absurd rfl h
  | cons b bs => rw [List.getLast?_cons_cons]

theorem getLast?_collapseDS : ∀ l : List Char, (collapseDS l).getLast? = l.getLast?
  | [] => rfl
  | [c] => rfl
  | c1 :: c2 :: rest => by
    by_cases h : c1 = ' ' ∧ c2 = ' '
    · rw [collapseDS, if_pos h]
      by_cases hrest : rest = []
      · subst hrest
        rw [List.getLast?_cons_cons, h.2]
        rfl
      · rw [getLast?_cons_of_ne_nil (collapseDS_ne_nil hrest),
          getLast?_collapseDS rest, List.getLast?_cons_cons,
          getLast?_cons_of_ne_nil hrest]
    · rw [collapseDS, if_neg h,
        getLast?_cons_of_ne_nil (collapseDS_ne_nil (List.cons_ne_nil c2 rest)),
        getLast?_collapseDS (c2 :: rest), List.getLast?_cons_cons]

theorem collapseDS_sublist : ∀ l : List Char, (collapseDS l).Sublist l
  | [] => List.Sublist.refl []
  | [c] => List.Sublist.refl [c]
  | c1 :: c2 :: rest => by
    by_cases h : c1 = ' ' ∧ c2 = ' '
    · rw [collapseDS, if_pos h, h.1]
      exact List.Sublist.cons₂ ' ' (List.Sublist.cons c2 (collapseDS_sublist rest))
    · rw [collapseDS, if_neg h]
      exact List.Sublist.cons₂ c1 (collapseDS_sublist (c2 :: rest))

theorem collapseDS_eq_self : ∀ {l : List Char}, noDoubleSpace l = true → collapseDS l = l
  | [], _ => rfl
  | [c], _ => rfl
  | c1 :: c2 :: rest, h => by
    rw [noDoubleSpace, Bool.and_eq_true] at h
    have hns : ¬(c1 = ' ' ∧ c2 = ' ') := by
      rcases h with ⟨h1, _⟩
      intro hc
      rw [hc.1, hc.2] at h1
      simp at h1
    rw [collapseDS, if_neg hns, collapseDS_eq_self h.2]

theorem noDoubleSpace_cons_iff {c : Char} {l : List Char} :
    noDoubleSpace (c :: l) = true ↔
      noDoubleSpace l = true ∧ (c = ' ' → l.head? ≠ some ' ') := by
  cases l with
  | nil =>
    constructor
    · intro _
      exact ⟨rfl, fun _ h => by cases h⟩
    · intro _
      rfl
  | cons d ds =>
    rw [noDoubleSpace, Bool.and_eq_true, List.head?_cons]
    constructor
    · rintro ⟨h1, h2⟩
      refine ⟨h2, fun hc hd => ?_⟩
      have hd2 : d = ' ' := Option.some.inj hd
      rw [hc, hd2] at h1
      simp at h1
    · rintro ⟨h1, h2⟩
      refine ⟨?_, h1⟩
      by_cases hc : c = ' '
      · have hd : ¬ d = ' ' := by
          intro hd
          exact h2 hc (by rw [hd])
        simp [hc, hd]
      · simp [hc]

/-! ### Lemmas on the three-space bound (toward claim C6) -/

theorem noTripleSpace_tail : ∀ (c : Char) (l : List Char),
    noTripleSpace (c :: l) = true → noTripleSpace l = true
  | _, [], _ => rfl
  | _, [_], _ => rfl
  | c, d :: e :: es, h => by
    rw [noTripleSpace, Bool.and_eq_true] at h
    exact h.2

theorem noTripleSpace_iff : ∀ l : List Char,
    noTripleSpace l = true ↔ ∀ s t : List Char, l ≠ s ++ ' ' :: ' ' :: ' ' :: t
  | [] => by
    refine ⟨fun _ s t heq => ?_, fun _ => rfl⟩
    have := congrArg List.length heq
    simp [List.length_append] at this
    omega
  | [a] => by
    refine ⟨fun _ s t heq => ?_, fun _ => rfl⟩
    have := congrArg List.length heq
    simp [List.length_append] at this
    omega
  | [a, b] => by
    refine ⟨fun _ s t heq => ?_, fun _ => rfl⟩
    have := congrArg List.length heq
    simp [List.length_append] at this
    omega
  | c1 :: c2 :: c3 :: r => by
    rw [noTripleSpace, Bool.and_eq_true, noTripleSpace_iff (c2 :: c3 :: r)]
    constructor
    · rintro ⟨h1, h2⟩ s t heq
      cases s with
      | nil =>
        simp only [List.nil_append] at heq
        injection heq with e1 heq
        injection heq with e2 heq
        injection heq with e3 heq
        rw [e1, e2, e3] at h1
        simp at h1
      | cons a s' =>
        rw [List.cons_append] at heq
        injection heq with e1 heq
        exact h2 s' t heq
    · intro hno
      constructor
      · by_cases hsp : c1 = ' ' ∧ c2 = ' ' ∧ c3 = ' '
        · exfalso
          refine hno [] r ?_
          rw [hsp.1, hsp.2.1, hsp.2.2]
          rfl
        · have hb : (c1 == ' ' && c2 == ' ' && c3 == ' ') = false := by
            by_cases e1 : c1 = ' '
            · by_cases e2 : c2 = ' '
              · by_cases e3 : c3 = ' '
                · exact absurd ⟨e1, e2, e3⟩ hsp
                · simp [e3]
              · simp [e2]
            · simp [e1]
          rw [hb]
          rfl
      · intro s t heq
        refine hno (c1 :: s) t ?_
        rw [List.cons_append, heq]

theorem noTriple_dropWhile {p : Char → Bool} {l : List Char}
    (h : noTripleSpace l = true) : noTripleSpace (l.dropWhile p) = true := by
  rw [noTripleSpace_iff] at h ⊢
  intro s t heq
  refine h (l.takeWhile p ++ s) t ?_
  conv_lhs => rw [← List.takeWhile_append_dropWhile p l]
  rw [heq, List.append_assoc]

theorem noTriple_reverse {l : List Char} (h : noTripleSpace l = true) :
    noTripleSpace l.reverse = true := by
  rw [noTripleSpace_iff] at h ⊢
  intro s t heq
  refine h t.reverse s.reverse ?_
  have h2 := congrArg List.reverse heq
  rw [List.reverse_reverse] at h2
  rw [h2]
  simp [List.reverse_append, List.append_assoc]

theorem noTriple_pyStrip {l : List Char} (h : noTripleSpace l = true) :
    noTripleSpace (pyStrip l) = true := by
  rw [pyStrip]
  exact noTriple_reverse (noTriple_dropWhile (noTriple_reverse (noTriple_dropWhile h)))

theorem noTriple_replaceGlyph : ∀ l : List Char, noTripleSpace l = true →
    noTripleSpace (replaceGlyph l) = true
  | [], _ => rfl
  | [_], _ => rfl
  | [_, _], _ => rfl
  | c1 :: c2 :: c3 :: r, h => by
    rw [noTripleSpace, Bool.and_eq_true] at h
    rw [replaceGlyph, List.map_cons, List.map_cons, List.map_cons, noTripleSpace,
      Bool.and_eq_true]
    refine ⟨?_, noTriple_replaceGlyph (c2 :: c3 :: r) h.2⟩
    rw [replGlyph_space_iff, replGlyph_space_iff, replGlyph_space_iff]
    exact h.1

/-! ### Collapse and truncation preservation lemmas (toward claim C6) -/

theorem noDouble_collapseDS : ∀ l : List Char,
    noTripleSpace l = true → noDoubleSpace (collapseDS l) = true
  | [], _ => rfl
  | [_], _ => rfl
  | c1 :: c2 :: rest, h => by
    have hta : noTripleSpace (c2 :: rest) = true := noTripleSpace_tail _ _ h
    have htb : noTripleSpace rest = true := noTripleSpace_tail _ _ hta
    by_cases hc : c1 = ' ' ∧ c2 = ' '
    · rw [collapseDS, if_pos hc, noDoubleSpace_cons_iff]
      refine ⟨noDouble_collapseDS rest htb, fun _ => ?_⟩
      rw [head?_collapseDS]
      cases rest with
      | nil => simp
      | cons d ds =>
        intro hd
        have hd2 : d = ' ' := Option.some.inj hd
        rw [noTripleSpace, Bool.and_eq_true] at h
        rcases h with ⟨h1, _⟩
        rw [hc.1, hc.2, hd2] at h1
        simp at h1
    · rw [collapseDS, if_neg hc, noDoubleSpace_cons_iff]
      refine ⟨noDouble_collapseDS (c2 :: rest) hta, fun hc1 => ?_⟩
      rw [head?_collapseDS, List.head?_cons]
      intro he
      exact hc ⟨hc1, Option.some.inj he⟩

theorem noDouble_take (l : List Char) : ∀ n : ℕ,
    noDoubleSpace l = true → noDoubleSpace (l.take n) = true := by
  induction l with
  | nil =>
    intro n _
    rw [List.take_nil]
    rfl
  | cons c cs ih =>
    intro n h
    cases n with
    | zero => rfl
    | succ m =>
      rw [List.take_succ_cons, noDoubleSpace_cons_iff]
      rw [noDoubleSpace_cons_iff] at h
      refine ⟨ih m h.1, fun hc => ?_⟩
      have h2 := h.2 hc
      cases m with
      | zero => simp
      | succ k =>
        cases cs with
        | nil => simp
        | cons d ds =>
          rw [List.take_succ_cons, List.head?_cons]
          rw [List.head?_cons] at h2
          exact h2

theorem noDouble_append_dots : ∀ l : List Char, noDoubleSpace l = true →
    noDoubleSpace (l ++ ('.' :: '.' :: '.' :: [])) = true
  | [], _ => rfl
  | c :: cs, h => by
    rw [List.cons_append, noDoubleSpace_cons_iff]
    rw [noDoubleSpace_cons_iff] at h
    refine ⟨noDouble_append_dots cs h.1, fun hc => ?_⟩
    cases cs with
    | nil =>
      intro hx
      exact absurd (Option.some.inj hx) (by decide)
    | cons d ds =>
      rw [List.cons_append, List.head?_cons]
      have h2 := h.2 hc
      rw [List.head?_cons] at h2
      exact h2

theorem length_truncate80_le (l : List Char) : (truncate80 l).length ≤ 80 := by
  rw [truncate80]
  by_cases h : 80 < l.length
  · rw [if_pos h]
    simp [List.length_append, List.length_take]
  · rw [if_neg h]
    omega

theorem truncate80_eq_self {l : List Char} (h : l.length ≤ 80) : truncate80 l = l := by
  rw [truncate80, if_neg (by omega)]

theorem headNotWS_truncate80 {l : List Char} (h : headNotWS l = true) :
    headNotWS (truncate80 l) = true := by
  rw [truncate80]
  by_cases hl : 80 < l.length
  · rw [if_pos hl]
    cases l with
    | nil => simp at hl
    | cons c cs =>
      rw [List.take_succ_cons, List.cons_append]
      simp only [headNotWS, List.head?_cons] at h ⊢
      exact h
  · rw [if_neg hl]
    exact h

theorem lastNotWS_truncate80 {l : List Char} (h : lastNotWS l = true) :
    lastNotWS (truncate80 l) = true := by
  rw [truncate80]
  by_cases hl : 80 < l.length
  · rw [if_pos hl]
    simp only [lastNotWS, List.getLast?_append]
    rfl
  · rw [if_neg hl]
    exact h

theorem noGlyph_truncate80 {l : List Char} (h : noGlyph l = true) :
    noGlyph (truncate80 l) = true := by
  rw [truncate80]
  by_cases hl : 80 < l.length
  · rw [if_pos hl]
    rw [noGlyph, List.all_append, Bool.and_eq_true]
    exact ⟨noGlyph_mono (List.take_subset 77 l) h, rfl⟩
  · rw [if_neg hl]
    exact h

theorem noDouble_truncate80 {l : List Char} (h : noDoubleSpace l = true) :
    noDoubleSpace (truncate80 l) = true := by
  rw [truncate80]
  by_cases hl : 80 < l.length
  · rw [if_pos hl]
    exact noDouble_append_dots _ (noDouble_take l 77 h)
  · rw [if_neg hl]
    exact h

theorem cleanChars_idem {l : List Char} (h : noTripleSpace l = true) :
    cleanChars (cleanChars l) = cleanChars l := by
  have hs1 : headNotWS (pyStrip l) = true := headNotWS_pyStrip l
  have hs2 : lastNotWS (pyStrip l) = true := lastNotWS_pyStrip l
  have hg1 : headNotWS (replaceGlyph (pyStrip l)) = true := headNotWS_replaceGlyph hs1
  have hg2 : lastNotWS (replaceGlyph (pyStrip l)) = true := lastNotWS_replaceGlyph hs2
  have hg3 : noGlyph (replaceGlyph (pyStrip l)) = true := noGlyph_replaceGlyph _
  have hg4 : noTripleSpace (replaceGlyph (pyStrip l)) = true :=
    noTriple_replaceGlyph _ (noTriple_pyStrip h)
  have hc1 : headNotWS (collapseDS (replaceGlyph (pyStrip l))) = true := by
    simp only [headNotWS, head?_collapseDS]
    simp only [headNotWS] at hg1
    exact hg1
  have hc2 : lastNotWS (collapseDS (replaceGlyph (pyStrip l))) = true := by
    simp only [lastNotWS, getLast?_collapseDS]
    simp only [lastNotWS] at hg2
    exact hg2
  have hc3 : noGlyph (collapseDS (replaceGlyph (pyStrip l))) = true :=
    noGlyph_mono (collapseDS_sublist _).subset hg3
  have hc4 : noDoubleSpace (collapseDS (replaceGlyph (pyStrip l))) = true :=
    noDouble_collapseDS _ hg4
  have ht1 := headNotWS_truncate80 hc1
  have ht2 := lastNotWS_truncate80 hc2
  have ht3 := noGlyph_truncate80 hc3
  have ht4 := noDouble_truncate80 hc4
  have ht5 := length_truncate80_le (collapseDS (replaceGlyph (pyStrip l)))
  conv_lhs => rw [cleanChars, cleanChars]
  rw [pyStrip_eq_self ht1 ht2, replaceGlyph_fix ht3, collapseDS_eq_self ht4,
    truncate80_eq_self ht5]
  rfl

/-! ### Claim C6 -/

/-- C6 counterexample: the cleanup is not idempotent on the code as written —
a run of three spaces collapses to two spaces on the first pass (Python's
`replace('  ', ' ')` resumes scanning after each replacement) and to one
space only on the second pass. -/
theorem c6_counterexample :
    clean_title (clean_title "a   b") ≠ clean_title "a   b" := by
  decide

/-- C6 (amended): title cleanup is idempotent on every title containing no
run of three or more consecutive spaces; on such runs, a second application
collapses spaces further, so the unrestricted claim fails. -/
theorem c6_cleanup_idempotent (s : String) (h : noTripleSpace s.data = true) :
    clean_title (clean_title s) = clean_title s :=
  congrArg String.mk (cleanChars_idem h)

/-- Witness for C6 (amended) at a concrete title with a double space. -/
theorem c6_witness :
    clean_title (clean_title "Transit  survey") = clean_title "Transit  survey" :=
  c6_cleanup_idempotent "Transit  survey" (by decide)

/-! ### Claim C1 -/

/-- C1: a column is classified `Numeric` (and rendered as a histogram)
exactly when every non-missing cell parses as a numeric literal; a single
malformed cell forces the whole column to `Categorical` (a bar chart), with
no per-cell failure (`create_plot` is total). -/
theorem c1_numeric_dichotomy (cells : List (Option String)) :
    (create_plot cells = ChartPayload.histogram 10 (numMean cells) ↔
      ∀ s : String, some s ∈ cells → cellIsNumeric s = true)
    ∧ ((∃ s : String, some s ∈ cells ∧ cellIsNumeric s = false) →
      create_plot cells = ChartPayload.bars (barPayload cells)) := by
  by_cases h : columnIsNumeric cells = true
  · have hp : create_plot cells = ChartPayload.histogram 10 (numMean cells) := by
      simp [create_plot, h]
    refine ⟨⟨fun _ => columnIsNumeric_iff.mp h, fun _ => hp⟩, ?_⟩
    rintro ⟨s, hs, hf⟩
    have hs' := columnIsNumeric_iff.mp h s hs
    rw [hs'] at hf
    cases hf
  · have hp : create_plot cells = ChartPayload.bars (barPayload cells) := by
      simp [create_plot, h]
    refine ⟨⟨fun hh => ?_, fun hall => absurd (columnIsNumeric_iff.mpr hall) h⟩,
      fun _ => hp⟩
    rw [hp] at hh
    exact absurd hh (by simp)

/-- Witness for C1: a column whose second cell is malformed is rendered as a
bar chart. -/
theorem c1_witness :
    create_plot [some "1", some "abc"] =
      ChartPayload.bars (barPayload [some "1", some "abc"]) :=
  (c1_numeric_dichotomy [some "1", some "abc"]).2 ⟨"abc", by decide, by decide⟩

/-! ### Claim C2 -/

/-- C2: for a categorical column, the ranked (value, count) list is sorted
descending by count; ties are kept in first-encountered order (for every
count value, the entries carrying it appear exactly as in the
first-encounter frequency table `freqList`, never reordered by label text);
every entry's count is the value's occurrence count among the non-missing
cells and is positive (no zero-count labels); a value appears exactly when
it is observed non-missing; and the chart payload is this list with
display-truncated labels. -/
theorem c2_ranked_counts (cells : List (Option String)) :
    (value_counts (nonMissing (typedCells cells))).Pairwise (fun a b => b.2 ≤ a.2)
    ∧ (∀ k : ℕ, (value_counts (nonMissing (typedCells cells))).filter (fun p => p.2 = k)
        = (freqList (nonMissing (typedCells cells))).filter (fun p => p.2 = k))
    ∧ (∀ p ∈ value_counts (nonMissing (typedCells cells)),
        p.2 = (nonMissing (typedCells cells)).count p.1 ∧ 0 < p.2)
    ∧ (∀ v : CVal, (∃ n, (v, n) ∈ value_counts (nonMissing (typedCells cells)))
        ↔ v ∈ nonMissing (typedCells cells))
    ∧ barPayload cells = (value_counts (nonMissing (typedCells cells))).map
        (fun p => (truncLabel (showCVal p.1), p.2)) := by
  refine ⟨pairwise_sortByCountDesc _, fun k => filter_sortByCountDesc _ k, ?_, ?_, rfl⟩
  · intro p hp
    obtain ⟨h1, h2⟩ := (mem_value_counts p _).mp hp
    refine ⟨h2, ?_⟩
    rw [h2]
    exact List.count_pos_iff.mpr h1
  · intro v
    constructor
    · rintro ⟨n, hn⟩
      exact ((mem_value_counts (v, n) _).mp hn).1
    · intro hv
      exact ⟨(nonMissing (typedCells cells)).count v,
        (mem_value_counts (v, (nonMissing (typedCells cells)).count v) _).mpr ⟨hv, rfl⟩⟩

/-- Witness for C2: the top entry of a concrete column has the observed
occurrence count and it is positive. -/
theorem c2_witness :
    (CVal.str "bus", 2).2 =
      (nonMissing (typedCells [some "bus", some "train", none, some "bus"])).count
        (CVal.str "bus", 2).1
    ∧ 0 < (CVal.str "bus", 2).2 :=
  (c2_ranked_counts [some "bus", some "train", none, some "bus"]).2.2.1
    (CVal.str "bus", 2) (by decide)

/-! ### Claim C3 -/

/-- C3 counterexample: a 51-character label is displayed as its first 50
characters plus the ellipsis marker, which differs from the
47-characters-plus-marker form the claim states. -/
theorem c3_counterexample :
    truncLabel ⟨List.replicate 51 'a'⟩ ≠
      ⟨(List.replicate 51 'a').take 47 ++ ('.' :: '.' :: '.' :: [])⟩ := by
  decide

/-- C3 (amended): a label whose string form is longer than 50 characters is
displayed as its first 50 characters followed by the ellipsis marker (not
47); labels of 50 characters or fewer are displayed unchanged; and every
displayed label of a bar payload arises this way from an observed
non-missing value. -/
theorem c3_label_truncation (cells : List (Option String)) (s : String) :
    ((50 < s.data.length →
        truncLabel s = ⟨s.data.take 50 ++ ('.' :: '.' :: '.' :: [])⟩)
      ∧ (s.data.length ≤ 50 → truncLabel s = s))
    ∧ (∀ p ∈ barPayload cells, ∃ v ∈ nonMissing (typedCells cells),
        p.1 = truncLabel (showCVal v)) := by
  refine ⟨⟨fun h => ?_, fun h => ?_⟩, fun p hp => ?_⟩
  · rw [truncLabel, if_pos h]
  · rw [truncLabel, if_neg (by omega)]
  · rw [barPayload] at hp
    obtain ⟨q, hq, hpq⟩ := List.mem_map.mp hp
    refine ⟨q.1, ((mem_value_counts q _).mp hq).1, ?_⟩
    rw [← hpq]

/-- Witness for C3 (amended) at a concrete 51-character label. -/
theorem c3_witness :
    truncLabel ⟨List.replicate 51 'a'⟩ =
      ⟨(List.replicate 51 'a').take 50 ++ ('.' :: '.' :: '.' :: [])⟩ :=
  (c3_label_truncation [] ⟨List.replicate 51 'a'⟩).1.1 (by decide)

/-! ### Claim C4 -/

/-- C4: the claim's floor identity is the evident intent, but the code
computes `int((top_count / len(df)) * 100)` in binary64 arithmetic, and at a
100-row table whose top answer occurs 29 times this evaluates to 28
(`(29/100)*100 = 28.999999999999996…` as a double), one below
`floor(100*29/100) = 29` — so the emitted record `{percentage: 28,
count: 29, total: 100}` contradicts its own count and total fields. The
title, top answer, count and total fields are as the claim states. -/
theorem c4_percentage_float_bug :
    key_insights t29 = [⟨"Q", "A", 28, 29, 100⟩]
    ∧ ⌊(100 * (29 : ℚ)) / (100 : ℚ)⌋ = 29 := by
  constructor
  · decide!
  · rw [show (100 * (29 : ℚ)) / (100 : ℚ) = ((29 : ℤ) : ℚ) by norm_num]
    exact Int.floor_intCast 29

/-! ### Claim C7 -/

/-- C7: cross-tabs pair strictly the first three non-excluded categorical
columns in table order — adjacent pairs of the first three — and a table
with fewer than two categorical columns produces no cross-tabs. -/
theorem c7_crosstab_pairs (t : Table) :
    crossTabs t = ((catCols t).take 3).zip (((catCols t).take 3).drop 1)
    ∧ ((catCols t).length < 2 → crossTabs t = []) := by
  rcases h : catCols t with _ | ⟨c0, _ | ⟨c1, _ | ⟨c2, rest⟩⟩⟩
  · simp [crossTabs, h]
  · simp [crossTabs, h]
  · refine ⟨by simp [crossTabs, h], fun hl => ?_⟩
    simp at hl
  · refine ⟨by simp [crossTabs, h], fun hl => ?_⟩
    simp at hl
    omega

/-- Witness for C7: a table whose only categorical question column is `Q`
produces no cross-tabs. -/
theorem c7_witness : crossTabs tOneCat = [] :=
  (c7_crosstab_pairs tOneCat).2 (by decide)

/-! ### Claim C8 -/

/-- C8: every transport or parse failure of the fetch yields a failure value
carrying a human-readable cause (the loader never raises: it is a total
function of the fetch outcome), and the dashboard result for that cycle is
the error page with no charts and no insights. -/
theorem c8_load_failure (e : String) :
    load_survey_data (Except.error e) =
      LoadResult.failure ("Error loading data from Google Sheets: " ++ e)
    ∧ dashboard_route (Except.error e) =
      DashResult.errorPage
        "Error loading survey data! Make sure the Google Sheet is publicly accessible."
    ∧ (dashboard_route (Except.error e)).chartsOf = []
    ∧ (dashboard_route (Except.error e)).insightsOf = [] :=
  ⟨rfl, rfl, rfl, rfl⟩

/-! ### Claim C9 -/

/-- C9: only the first four question columns (in table order, after
exclusion) produce charts, while `total_questions` still counts every
non-excluded column. -/
theorem c9_chart_cap (t : Table) :
    plots t = ((questionCols t).take 4).map
        (fun c => (⟨(pyStrip c.name.data).take 60⟩, create_plot c.cells))
    ∧ (plots t).length = min 4 (questionCols t).length
    ∧ total_questions t = (questionCols t).length := by
  have hmap : plots t = ((questionCols t).take 4).map
      (fun c => (⟨(pyStrip c.name.data).take 60⟩, create_plot c.cells)) := by
    unfold plots
    refine filterMap_guard_eq_map _ _ _ (fun c hc => ?_)
    have hq : c ∈ questionCols t := List.take_subset 4 _ hc
    have hcol : c ∈ t.cols := List.mem_of_mem_filter hq
    have : c.name ∈ t.cols.map Column.name := List.mem_map_of_mem Column.name hcol
    exact List.elem_eq_true_of_mem this
  refine ⟨hmap, ?_, rfl⟩
  rw [hmap, List.length_map, List.length_take]

/-! ### Claim C5 -/

theorem filterMap_eq_map_getD {α β : Type} (f : α → Option β) (d : β) (l : List α)
    (h : ∀ a ∈ l, (f a).isSome = true) :
    l.filterMap f = l.map (fun a => (f a).getD d) := by
  induction l with
  | nil => rfl
  | cons a as ih =>
    obtain ⟨b, hb⟩ := Option.isSome_iff_exists.mp (h a (List.mem_cons_self a as))
    have ih' := ih (fun x hx => h x (List.mem_cons_of_mem a hx))
    simp [List.filterMap_cons, hb, ih']

/-- C5: when every numeric non-excluded column has at least one non-missing
value (so its own mean exists), the rating aggregate is exactly the mean of
the per-column means; and when no numeric non-excluded column exists it is
exactly 0. -/
theorem c5_mean_of_means (t : Table) :
    (numericQCols t = [] → avg_rating t = some 0)
    ∧ (numericQCols t ≠ [] →
      (∀ c ∈ numericQCols t, (numMean c.cells).isSome = true) →
      avg_rating t = some
        ((((numericQCols t).map (fun c => (numMean c.cells).getD 0)).sum)
          / (((numericQCols t).length : ℚ)))) := by
  constructor
  · intro h
    simp [avg_rating, h]
  · intro hne hall
    have h1 : (numericQCols t).isEmpty = false := by
      cases hq : numericQCols t with
      | nil => exact absurd hq hne
      | cons a l => rfl
    have h2 : (numericQCols t).filterMap (fun c => numMean c.cells)
        = (numericQCols t).map (fun c => (numMean c.cells).getD 0) :=
      filterMap_eq_map_getD _ 0 _ hall
    have h3 : ((numericQCols t).map
        (fun c => (numMean c.cells).getD 0)).isEmpty = false := by
      cases hq : numericQCols t with
      | nil => exact absurd hq hne
      | cons a l => rfl
    simp [avg_rating, h1, h2, h3]

/-- Witness for C5 at a one-numeric-column table with a missing cell: the
aggregate is the mean of that column's mean. -/
theorem c5_witness :
    avg_rating tRating = some
      ((((numericQCols tRating).map (fun c => (numMean c.cells).getD 0)).sum)
        / (((numericQCols tRating).length : ℚ))) :=
  (c5_mean_of_means tRating).2 (by decide) (by decide)

/-! ### Claim C10 -/

/-- C10: a table with zero rows produces no insight for any column (every
column of an empty table counts as entirely missing), so the percentage
division by the row count is never reached. -/
theorem c10_empty_table_no_insights (t : Table) (h : t.nrows = 0) :
    key_insights t = [] := by
  unfold key_insights
  rw [List.filterMap_eq_nil_iff]
  intro c hc
  have hcol : c ∈ t.cols := List.mem_of_mem_filter hc
  have hlen : c.cells.length = 0 := (t.wf c hcol).trans h
  have hnil : c.cells = [] := List.eq_nil_of_length_eq_zero hlen
  rw [hnil]
  simp [typedCells, nonMissing, value_counts, freqList, dedupFirst, dedupFirstAux,
    sortByCountDesc]

/-- Witness for C10: the two-column zero-row table yields no insights. -/
theorem c10_witness : key_insights tEmptyRows = [] :=
  c10_empty_table_no_insights tEmptyRows rfl

end TransitTalk
